import Mathlib

/-!
Shallow embedding of the authentication surface of the repository:
the sign-in form (Login), the four-step registration wizard (Register)
and the progress indicator (ProgressSteps). Pure functions of the
source are translated to Lean functions; React state updates become
explicit state passing; toast/navigation calls become an explicit
effect record returned by the handlers.
-/

/-- The character class matched by `\s` in a JavaScript regular expression
(WhiteSpace plus LineTerminator): tab, LF, VT, FF, CR, space, NBSP,
Ogham space, the U+2000..U+200A range, the line and paragraph separators,
narrow NBSP, medium mathematical space, ideographic space and BOM. -/
def jsWhitespace (c : Char) : Bool :=
  let n := c.toNat
  n = 0x9 || n = 0xA || n = 0xB || n = 0xC || n = 0xD || n = 0x20 ||
  n = 0xA0 || n = 0x1680 || (0x2000 ≤ n && n ≤ 0x200A) ||
  n = 0x2028 || n = 0x2029 || n = 0x202F || n = 0x205F || n = 0x3000 ||
  n = 0xFEFF

/-- `String.prototype.trim`: remove leading and trailing JavaScript
whitespace (the same class as `\s`). Used by the name validator in
`Register.tsx` line 61 (`value.trim()`). -/
def jsTrim (s : String) : String :=
  ⟨((s.data.dropWhile jsWhitespace).reverse.dropWhile jsWhitespace).reverse⟩

/-- A character admissible in every segment of the email pattern
`^[^\s@]+@[^\s@]+\.[^\s@]+$`: not JavaScript whitespace and not `@`. -/
def emailCharOk (c : Char) : Bool :=
  !jsWhitespace c && !(c = '@')

/-- One candidate split of the email regex match: local part `l.take i`,
an `@`, middle part of length `j`, a dot, and a tail; each part nonempty
and made of `emailCharOk` characters. -/
def emailSplitAt (l : List Char) (i j : Nat) : Bool :=
  let a := l.take i
  let r := l.drop i
  (r.head? == some '@') &&
  (let rest := r.tail
   let b := rest.take j
   let r2 := rest.drop j
   (r2.head? == some '.') &&
   (let c := r2.tail
    !a.isEmpty && !b.isEmpty && !c.isEmpty &&
    a.all emailCharOk && b.all emailCharOk && c.all emailCharOk))

/-- `/^[^\s@]+@[^\s@]+\.[^\s@]+$/.test(s)` — the email regex used in both
`Login` (`src/unnamed/part_000` line 29) and `Register.tsx` line 63: the
string matches iff some split into local part, `@`, middle, `.`, tail
succeeds (a backtracking search over split positions). -/
def emailMatch (s : String) : Bool :=
  let l := s.data
  (List.range l.length).any fun i =>
    (List.range l.length).any fun j =>
      emailSplitAt l i j

/-- Declarative reading of the pattern in the spec, `^[^\s@]+@[^\s@]+\.[^\s@]+$`:
the string decomposes as `a ++ "@" ++ b ++ "." ++ c` with `a`, `b`, `c`
nonempty sequences of non-whitespace non-`@` characters. -/
def emailPattern (s : String) : Prop :=
  ∃ a b c : List Char,
    a ≠ [] ∧ b ≠ [] ∧ c ≠ [] ∧
    a.all emailCharOk = true ∧ b.all emailCharOk = true ∧
    c.all emailCharOk = true ∧
    s.data = a ++ '@' :: (b ++ '.' :: c)

/-- A toast notification: `toast({title, description})`. -/
structure Toast where
  title : String
  toastText : String
deriving DecidableEq, Repr

/-- The externally visible effects of one handler invocation: the toasts
shown and the routes navigated to, in order. -/
structure Effects where
  toasts : List Toast
  navs : List String
deriving DecidableEq, Repr

/-- No effect. -/
def Effects.empty : Effects := ⟨[], []⟩

/-! ### Sign-in form (`Login`, `src/unnamed/part_000`) -/

/-- `formData` of the sign-in form. -/
structure LoginFormData where
  email : String
  password : String
deriving DecidableEq, Repr

/-- `errors` of the sign-in form; the empty string means no error. -/
structure LoginErrors where
  email : String
  password : String
deriving DecidableEq, Repr

/-- The `newErrors` record computed by `validateForm` (lines 21-41):
email must be nonempty and match the email regex; password must be
nonempty and at least 8 characters. -/
def loginValidateErrors (fd : LoginFormData) : LoginErrors :=
  { email :=
      if fd.email = "" then "Email is required"
      else if !emailMatch fd.email then "Please enter a valid email"
      else "",
    password :=
      if fd.password = "" then "Password is required"
      else if fd.password.length < 8 then "Password must be at least 8 characters"
      else "" }

/-- The effects of the sign-in success path (lines 50-54). -/
def loginSuccessEffects : Effects :=
  ⟨[⟨"Welcome back!", "You\x27ve successfully signed in to Meridian AI."⟩], ["/"]⟩

/-- `handleSubmit` of the sign-in form (lines 43-55): run `validateForm`
(which stores `newErrors`); when either error is nonempty, stop with no
effects, otherwise show the toast and navigate to `/`. -/
def loginHandleSubmit (fd : LoginFormData) : LoginErrors × Effects :=
  let ne := loginValidateErrors fd
  if ne.email = "" ∧ ne.password = "" then (ne, loginSuccessEffects)
  else (ne, Effects.empty)

/-! ### Registration wizard (`Register.tsx`) -/

/-- The four field identifiers of `FormData` in `Register.tsx`. -/
inductive RegField where
  | name
  | email
  | password
  | confirmPassword
deriving DecidableEq, Repr

/-- `formData` of the registration wizard. -/
structure RegFormData where
  name : String
  email : String
  password : String
  confirmPassword : String
deriving DecidableEq, Repr

/-- Read one field of `formData` (`formData[field]`). -/
def RegFormData.get (fd : RegFormData) : RegField → String
  | .name => fd.name
  | .email => fd.email
  | .password => fd.password
  | .confirmPassword => fd.confirmPassword

/-- Functional update of one field (`{...formData, [field]: v}`). -/
def RegFormData.set (fd : RegFormData) : RegField → String → RegFormData
  | .name, v => { fd with name := v }
  | .email, v => { fd with email := v }
  | .password, v => { fd with password := v }
  | .confirmPassword, v => { fd with confirmPassword := v }

/-- `errors` of the registration wizard, a `Partial<FormData>`: each field
either absent (`none`) or mapped to a message, where `some ""` is a
cleared entry. -/
structure RegErrors where
  name : Option String
  email : Option String
  password : Option String
  confirmPassword : Option String
deriving DecidableEq, Repr

/-- Update one entry of `errors` (`{...errors, [field]: m}`). -/
def RegErrors.set (e : RegErrors) : RegField → Option String → RegErrors
  | .name, m => { e with name := m }
  | .email, m => { e with email := m }
  | .password, m => { e with password := m }
  | .confirmPassword, m => { e with confirmPassword := m }

/-- Read one entry of `errors`. -/
def RegErrors.get (e : RegErrors) : RegField → Option String
  | .name => e.name
  | .email => e.email
  | .password => e.password
  | .confirmPassword => e.confirmPassword

/-- The `steps` array of `Register.tsx` (lines 29-54), reduced to the
field bound to each step, in order. -/
def steps : List RegField :=
  [.name, .email, .password, .confirmPassword]

/-- The whole wizard state: `currentStep`, `formData`, `errors`. -/
structure RegisterState where
  currentStep : Nat
  formData : RegFormData
  errors : RegErrors
deriving DecidableEq, Repr

/-- The wizard state created on mount (lines 20-27). -/
def initialState : RegisterState :=
  { currentStep := 0,
    formData := ⟨"", "", "", ""⟩,
    errors := ⟨none, none, none, none⟩ }

/-- `validateField` (lines 58-71): per-field message or `none`. The
confirm-password rule compares against the current `formData.password`
captured by the closure, hence the extra `fd` argument. -/
def validateField (fd : RegFormData) : RegField → String → Option String
  | .name, value =>
      if (jsTrim value).length < 2 then some "Name must be at least 2 characters"
      else none
  | .email, value =>
      if !emailMatch value then some "Please enter a valid email"
      else none
  | .password, value =>
      if value.length < 8 then some "Password must be at least 8 characters"
      else none
  | .confirmPassword, value =>
      if value ≠ fd.password then some "Passwords do not match"
      else none

/-- The effects of `handleSubmit` in `Register.tsx` (lines 97-103). -/
def registerSubmitEffects : Effects :=
  ⟨[⟨"Account created!", "Welcome to Meridian AI."⟩], ["/"]⟩

/-- `handleNext` (lines 73-89): validate the field of the active step; on
failure store the message and stop; on success clear the entry, then
either increment `currentStep` (when below `steps.length - 1`) or run
`handleSubmit`. `none` models the crash of `steps[currentStep]` being
undefined for an out-of-range step. -/
def handleNext (st : RegisterState) : Option (RegisterState × Effects) :=
  match steps.get? st.currentStep with
  | Option.none => none
  | Option.some field =>
    let value := st.formData.get field
    match validateField st.formData field value with
    | some err =>
        some ({ st with errors := st.errors.set field (some err) }, Effects.empty)
    | none =>
        let cleared : RegisterState :=
          { st with errors := st.errors.set field (some "") }
        if st.currentStep < steps.length - 1 then
          some ({ cleared with currentStep := st.currentStep + 1 }, Effects.empty)
        else
          some (cleared, registerSubmitEffects)

/-- `handleBack` (lines 91-95): decrement `currentStep` when positive;
nothing else changes. -/
def handleBack (st : RegisterState) : RegisterState :=
  if st.currentStep > 0 then { st with currentStep := st.currentStep - 1 }
  else st

/-- The `Input` `onChange` handler (lines 185-188): overwrite the active
field of the active step with the typed value and clear the error entry
of that field.
`none` again models an out-of-range step. -/
def editField (st : RegisterState) (v : String) : Option RegisterState :=
  match steps.get? st.currentStep with
  | Option.none => none
  | Option.some field =>
      some { st with formData := st.formData.set field v,
                     errors := st.errors.set field (some "") }

/-- One user interaction with the wizard. -/
inductive RegAction where
  | edit (v : String)
  | advance
  | retreat
deriving DecidableEq, Repr

/-- Apply one interaction: editing and retreating produce no effects;
advancing may produce the submission effects. -/
def regApply (st : RegisterState) : RegAction → Option (RegisterState × Effects)
  | .edit v => (editField st v).map fun st2 => (st2, Effects.empty)
  | .advance => handleNext st
  | .retreat => some (handleBack st, Effects.empty)

/-- Run a list of interactions, recording `currentStep` after each one and
accumulating the effects in order. -/
def runTrace (st : RegisterState) : List RegAction → Option (List Nat × Effects)
  | [] => some ([], Effects.empty)
  | a :: as =>
    match regApply st a with
    | Option.none => none
    | Option.some (st2, e) =>
      match runTrace st2 as with
      | Option.none => none
      | Option.some (tr, e2) =>
          some (st2.currentStep :: tr, ⟨e.toasts ++ e2.toasts, e.navs ++ e2.navs⟩)

/-- The wizard states reachable from the mount state by field edits,
advances and retreats. -/
inductive Reachable : RegisterState → Prop where
  | init : Reachable initialState
  | edit {st st2 : RegisterState} {v : String} :
      Reachable st → editField st v = some st2 → Reachable st2
  | advance {st st2 : RegisterState} {e : Effects} :
      Reachable st → handleNext st = some (st2, e) → Reachable st2
  | retreat {st : RegisterState} :
      Reachable st → Reachable (handleBack st)

/-! ### Progress indicator (`ProgressSteps`) -/

/-- The three visual states of a progress segment: `bg-primary`
(completed), `bg-primary/60` (active), `bg-muted` (pending). -/
inductive SegmentState where
  | completed
  | active
  | pending
deriving DecidableEq, Repr

/-- `ProgressSteps` (lines 538-555): for each index below `totalSteps`,
the segment is completed below `currentStep`, active at `currentStep`,
pending above it. -/
def progressSteps (currentStep totalSteps : Nat) : List SegmentState :=
  (List.range totalSteps).map fun index =>
    if index < currentStep then .completed
    else if index = currentStep then .active
    else .pending

/-! ### Helper lemmas: the email matcher agrees with the declarative pattern -/

/-- A list with head `a` is `a` consed on its tail. -/
theorem head?_inv {l : List Char} {a : Char} (h : l.head? = some a) :
    ∃ t, l = a :: t := by
  cases l with
  | nil => simp at h
  | cons x t =>
      simp only [List.head?] at h
      injection h with hx
      exact ⟨t, by rw [hx]⟩

/-- A successful split certifies the declarative decomposition. -/
theorem emailSplitAt_sound {l : List Char} {i j : Nat}
    (h : emailSplitAt l i j = true) :
    ∃ a b c : List Char, a ≠ [] ∧ b ≠ [] ∧ c ≠ [] ∧
      a.all emailCharOk = true ∧ b.all emailCharOk = true ∧
      c.all emailCharOk = true ∧ l = a ++ '@' :: (b ++ '.' :: c) := by
  simp only [emailSplitAt, Bool.and_eq_true, beq_iff_eq, Bool.not_eq_true',
    List.isEmpty_eq_false] at h
  obtain ⟨hat, hdot, ⟨⟨⟨⟨hna, hnb⟩, hnc⟩, hoka⟩, hokb⟩, hokc⟩ := h
  obtain ⟨t, ht⟩ := head?_inv hat
  rw [ht] at hdot hnb hnc hokb hokc
  simp only [List.tail_cons] at hdot hnb hnc hokb hokc
  obtain ⟨u, hu⟩ := head?_inv hdot
  rw [hu] at hnc hokc
  simp only [List.tail_cons] at hnc hokc
  refine ⟨l.take i, t.take j, u, hna, hnb, hnc, hoka, hokb, hokc, ?_⟩
  have h1 : l.take i ++ l.drop i = l := List.take_append_drop i l
  rw [ht] at h1
  have h2 : t.take j ++ t.drop j = t := List.take_append_drop j t
  rw [hu] at h2
  rw [h2, h1]

/-- A declarative decomposition yields a successful split at the obvious
positions. -/
theorem emailSplitAt_complete (a b c : List Char)
    (hna : a ≠ []) (hnb : b ≠ []) (hnc : c ≠ [])
    (hoka : a.all emailCharOk = true) (hokb : b.all emailCharOk = true)
    (hokc : c.all emailCharOk = true) :
    emailSplitAt (a ++ '@' :: (b ++ '.' :: c)) a.length b.length = true := by
  have hdrop : (a ++ '@' :: (b ++ '.' :: c)).drop a.length = '@' :: (b ++ '.' :: c) :=
    List.drop_left a _
  have htake : (a ++ '@' :: (b ++ '.' :: c)).take a.length = a :=
    List.take_left a _
  simp only [emailSplitAt, hdrop, htake, List.tail_cons, List.head?,
    List.take_left, List.drop_left, Bool.and_eq_true, beq_iff_eq,
    Bool.not_eq_true', List.isEmpty_eq_false]
  exact ⟨trivial, trivial, ⟨⟨⟨⟨hna, hnb⟩, hnc⟩, hoka⟩, hokb⟩, hokc⟩

/-- The executable regex matcher and the declarative pattern agree. -/
theorem emailMatch_iff (s : String) : emailMatch s = true ↔ emailPattern s := by
  constructor
  · intro h
    simp only [emailMatch, List.any_eq_true, List.mem_range] at h
    obtain ⟨i, _, j, _, hsplit⟩ := h
    obtain ⟨a, b, c, hna, hnb, hnc, hoka, hokb, hokc, hl⟩ := emailSplitAt_sound hsplit
    exact ⟨a, b, c, hna, hnb, hnc, hoka, hokb, hokc, hl⟩
  · intro h
    obtain ⟨a, b, c, hna, hnb, hnc, hoka, hokb, hokc, hl⟩ := h
    simp only [emailMatch, List.any_eq_true, List.mem_range]
    have hlen : s.data.length = a.length + (b.length + (c.length + 2)) := by
      rw [hl]; simp [List.length_append]; omega
    have hca : 0 < a.length := List.length_pos.mpr hna
    have hcb : 0 < b.length := List.length_pos.mpr hnb
    have hcc : 0 < c.length := List.length_pos.mpr hnc
    refine ⟨a.length, by omega, b.length, by omega, ?_⟩
    rw [hl]
    exact emailSplitAt_complete a b c hna hnb hnc hoka hokb hokc

/-- Validity of the fields behind the current step: past step 0 the name
has trimmed length at least 2, past step 1 the email matches the regex,
and at step 3 the password has length at least 8. -/
def stepFieldsValid (st : RegisterState) : Prop :=
  (1 ≤ st.currentStep → 2 ≤ (jsTrim st.formData.name).length) ∧
  (2 ≤ st.currentStep → emailMatch st.formData.email = true) ∧
  (st.currentStep = 3 → 8 ≤ st.formData.password.length)

/-- A passing name validation means the trimmed value has length at
least 2. -/
theorem name_valid_of_none {fd : RegFormData} {v : String}
    (h : validateField fd .name v = none) : 2 ≤ (jsTrim v).length := by
  simp only [validateField] at h
  by_contra hlt
  rw [if_pos (by omega)] at h
  exact Option.noConfusion h

/-- A passing email validation means the regex matches. -/
theorem email_valid_of_none {fd : RegFormData} {v : String}
    (h : validateField fd .email v = none) : emailMatch v = true := by
  simp only [validateField] at h
  by_contra hne
  rw [if_pos (by simp [hne])] at h
  exact Option.noConfusion h

/-- A passing password validation means the value has length at
least 8. -/
theorem password_valid_of_none {fd : RegFormData} {v : String}
    (h : validateField fd .password v = none) : 8 ≤ v.length := by
  simp only [validateField] at h
  by_contra hlt
  rw [if_pos (by omega)] at h
  exact Option.noConfusion h

/-- Every reachable wizard state has a step index below 4 and valid
fields behind the current step. -/
theorem reachable_inv {st : RegisterState} (h : Reachable st) :
    st.currentStep < 4 ∧ stepFieldsValid st := by
  induction h with
  | init =>
      exact ⟨by decide, fun hc => by simp [initialState] at hc,
        fun hc => by simp [initialState] at hc,
        fun hc => by simp [initialState] at hc⟩
  | edit hr he ih =>
      obtain ⟨h4, hn, hm, hp⟩ := ih
      rename_i st v st2
      have hcases : st.currentStep = 0 ∨ st.currentStep = 1 ∨
          st.currentStep = 2 ∨ st.currentStep = 3 := by omega
      rcases hcases with h0 | h0 | h0 | h0 <;>
        simp only [editField, h0, steps, List.get?, Option.some.injEq] at he <;>
        subst he <;>
        simp only [stepFieldsValid, RegFormData.set, h0]
      · exact ⟨by omega, fun hc => by omega, fun hc => by omega, fun hc => by omega⟩
      · exact ⟨by omega, fun hc => hn (by omega), fun hc => by omega, fun hc => by omega⟩
      · exact ⟨by omega, fun hc => hn (by omega), fun hc => hm (by omega), fun hc => by omega⟩
      · exact ⟨by omega, fun hc => hn (by omega), fun hc => hm (by omega), fun hc => hp (by omega)⟩
  | advance hr he ih =>
      obtain ⟨h4, hn, hm, hp⟩ := ih
      rename_i st st2 e
      have hcases : st.currentStep = 0 ∨ st.currentStep = 1 ∨
          st.currentStep = 2 ∨ st.currentStep = 3 := by omega
      rcases hcases with h0 | h0 | h0 | h0
      · simp only [handleNext, h0, steps, List.get?] at he
        cases hval : validateField st.formData RegField.name (st.formData.get RegField.name) with
        | some err =>
            rw [hval] at he
            simp only [Option.some.injEq, Prod.mk.injEq] at he
            obtain ⟨he1, he2⟩ := he
            subst he1
            simp only [stepFieldsValid]
            exact ⟨by omega, fun hc => by omega, fun hc => by omega, fun hc => by omega⟩
        | none =>
            rw [hval] at he
            simp only [List.length_cons, List.length_nil] at he
            rw [if_pos (by omega)] at he
            simp only [Option.some.injEq, Prod.mk.injEq] at he
            obtain ⟨he1, he2⟩ := he
            subst he1
            simp only [stepFieldsValid]
            exact ⟨by omega, fun hc => name_valid_of_none hval,
              fun hc => by omega, fun hc => by omega⟩
      · simp only [handleNext, h0, steps, List.get?] at he
        cases hval : validateField st.formData RegField.email (st.formData.get RegField.email) with
        | some err =>
            rw [hval] at he
            simp only [Option.some.injEq, Prod.mk.injEq] at he
            obtain ⟨he1, he2⟩ := he
            subst he1
            simp only [stepFieldsValid]
            exact ⟨by omega, fun hc => hn (by omega), fun hc => by omega,
              fun hc => by omega⟩
        | none =>
            rw [hval] at he
            simp only [List.length_cons, List.length_nil] at he
            rw [if_pos (by omega)] at he
            simp only [Option.some.injEq, Prod.mk.injEq] at he
            obtain ⟨he1, he2⟩ := he
            subst he1
            simp only [stepFieldsValid]
            exact ⟨by omega, fun hc => hn (by omega),
              fun hc => email_valid_of_none hval, fun hc => by omega⟩
      · simp only [handleNext, h0, steps, List.get?] at he
        cases hval : validateField st.formData RegField.password (st.formData.get RegField.password) with
        | some err =>
            rw [hval] at he
            simp only [Option.some.injEq, Prod.mk.injEq] at he
            obtain ⟨he1, he2⟩ := he
            subst he1
            simp only [stepFieldsValid]
            exact ⟨by omega, fun hc => hn (by omega), fun hc => hm (by omega),
              fun hc => by omega⟩
        | none =>
            rw [hval] at he
            simp only [List.length_cons, List.length_nil] at he
            rw [if_pos (by omega)] at he
            simp only [Option.some.injEq, Prod.mk.injEq] at he
            obtain ⟨he1, he2⟩ := he
            subst he1
            simp only [stepFieldsValid]
            exact ⟨by omega, fun hc => hn (by omega), fun hc => hm (by omega),
              fun hc => password_valid_of_none hval⟩
      · simp only [handleNext, h0, steps, List.get?] at he
        cases hval : validateField st.formData RegField.confirmPassword
            (st.formData.get RegField.confirmPassword) with
        | some err =>
            rw [hval] at he
            simp only [Option.some.injEq, Prod.mk.injEq] at he
            obtain ⟨he1, he2⟩ := he
            subst he1
            simp only [stepFieldsValid]
            exact ⟨by omega, fun hc => hn (by omega), fun hc => hm (by omega),
              fun hc => hp h0⟩
        | none =>
            rw [hval] at he
            simp only [List.length_cons, List.length_nil] at he
            rw [if_neg (by omega)] at he
            simp only [Option.some.injEq, Prod.mk.injEq] at he
            obtain ⟨he1, he2⟩ := he
            subst he1
            simp only [stepFieldsValid]
            exact ⟨by omega, fun hc => hn (by omega), fun hc => hm (by omega),
              fun hc => hp h0⟩
  | retreat hr ih =>
      obtain ⟨h4, hn, hm, hp⟩ := ih
      rename_i st
      by_cases h0 : 0 < st.currentStep
      · simp only [handleBack, if_pos h0]
        simp only [stepFieldsValid]
        exact ⟨by omega, fun hc => hn (by omega), fun hc => hm (by omega),
          fun hc => hp (by omega)⟩
      · simp only [handleBack, if_neg h0]
        exact ⟨h4, hn, hm, hp⟩

/-- Claim C1: when the field of the active registration step validates
successfully, the error entry for that field is cleared (set to the empty
message); if the step index is below 3 it is incremented by exactly 1, and
at step 3 the submission runs instead of incrementing, producing exactly
one toast and one navigation to the home route. Consequently the run with
a valid name, a valid email, password "abcdefgh" and confirmation
"abcdefgh" visits steps 0, 1, 2, 3 in order and produces exactly one final
toast and one navigation to the home route. -/
theorem c1_advance_success {st : RegisterState} {field : RegField}
    (hf : steps.get? st.currentStep = some field)
    (hv : validateField st.formData field (st.formData.get field) = none) :
    (st.currentStep < 3 →
      handleNext st =
        some ({ st with errors := st.errors.set field (some ""),
                        currentStep := st.currentStep + 1 }, Effects.empty)) ∧
    (st.currentStep = 3 →
      handleNext st =
        some ({ st with errors := st.errors.set field (some "") },
          registerSubmitEffects)) ∧
    runTrace initialState
      [.edit "John Doe", .advance, .edit "a@b.co", .advance,
       .edit "abcdefgh", .advance, .edit "abcdefgh", .advance] =
      some ([0, 1, 1, 2, 2, 3, 3, 3], registerSubmitEffects) := by
  refine ⟨fun h3 => ?_, fun h3 => ?_, by decide⟩
  · simp only [handleNext, hf, hv]
    rw [if_pos (by simp [steps]; omega)]
  · simp only [handleNext, hf, hv]
    rw [if_neg (by simp [steps]; omega)]

/-- Witness for C1 at a concrete state on step 0 with a valid name. -/
theorem c1_witness :
    handleNext ⟨0, ⟨"ab", "", "", ""⟩, ⟨none, none, none, none⟩⟩ =
      some (⟨1, ⟨"ab", "", "", ""⟩, ⟨some "", none, none, none⟩⟩, Effects.empty) :=
  (@c1_advance_success ⟨0, ⟨"ab", "", "", ""⟩, ⟨none, none, none, none⟩⟩
    RegField.name rfl rfl).1 (by decide)

/-- Claim C2: for every input string, email validation in both the
sign-in form and the registration wizard accepts iff the string matches
the declarative reading of the pattern (nonempty runs of characters that
are neither whitespace nor the at sign, separated by one at sign and a
later dot); in particular a\@b.co is accepted while a\@b, \@b.co and
the string with an inner space are rejected. -/
theorem c2_email_validation (fd : RegFormData) (lf : LoginFormData) (v : String) :
    (validateField fd .email v = none ↔ emailPattern v) ∧
    ((loginValidateErrors lf).email = "" ↔ emailPattern lf.email) ∧
    validateField fd .email "a@b.co" = none ∧
    validateField fd .email "a@b" = some "Please enter a valid email" ∧
    validateField fd .email "@b.co" = some "Please enter a valid email" ∧
    validateField fd .email "a b@c.com" = some "Please enter a valid email" := by
  refine ⟨⟨fun h => (emailMatch_iff v).mp (email_valid_of_none h), fun h => ?_⟩,
    ?_,
    by simp [validateField, show emailMatch "a@b.co" = true from by decide],
    by simp [validateField, show emailMatch "a@b" = false from by decide],
    by simp [validateField, show emailMatch "@b.co" = false from by decide],
    by simp [validateField, show emailMatch "a b@c.com" = false from by decide]⟩
  · have hm := (emailMatch_iff v).mpr h
    simp [validateField, hm]
  · by_cases he : lf.email = ""
    · constructor
      · intro hcontra
        simp [loginValidateErrors, he] at hcontra
      · intro hp
        rw [he] at hp
        exact absurd ((emailMatch_iff "").mpr hp) (by decide)
    · by_cases hm : emailMatch lf.email = true
      · simp [loginValidateErrors, he, hm]
        exact (emailMatch_iff _).mp hm
      · have hmf : emailMatch lf.email = false := by
          revert hm; cases emailMatch lf.email <;> simp
        simp [loginValidateErrors, he, hmf]
        intro hp
        exact absurd ((emailMatch_iff _).mpr hp) (by simp [hmf])

/-- Claim C3: when the validator of the active step fails, the error
message for that field is stored and the step index is unchanged; the
name validator fails iff the trimmed length is below 2 and the password
validator fails iff the length is below 8; advancing from step 0 with
name "A" stores "Name must be at least 2 characters" and the step
remains 0. -/
theorem c3_advance_failure {st : RegisterState} {field : RegField} {err : String}
    (hf : steps.get? st.currentStep = some field)
    (hv : validateField st.formData field (st.formData.get field) = some err) :
    handleNext st =
      some ({ st with errors := st.errors.set field (some err) }, Effects.empty) ∧
    (∀ fd w, validateField fd RegField.name w ≠ none ↔ (jsTrim w).length < 2) ∧
    (∀ fd w, validateField fd RegField.password w ≠ none ↔ w.length < 8) ∧
    handleNext ⟨0, ⟨"A", "", "", ""⟩, ⟨none, none, none, none⟩⟩ =
      some (⟨0, ⟨"A", "", "", ""⟩,
        ⟨some "Name must be at least 2 characters", none, none, none⟩⟩, Effects.empty) := by
  refine ⟨?_, fun fd w => ?_, fun fd w => ?_, by decide⟩
  · simp only [handleNext, hf, hv]
  · by_cases hlt : (jsTrim w).length < 2 <;> simp [validateField, hlt]
  · by_cases hlt : w.length < 8 <;> simp [validateField, hlt]

/-- Witness for C3 at the concrete failing state of the claim. -/
theorem c3_witness :
    handleNext ⟨0, ⟨"A", "", "", ""⟩, ⟨none, none, none, none⟩⟩ =
      some (⟨0, ⟨"A", "", "", ""⟩,
        ⟨some "Name must be at least 2 characters", none, none, none⟩⟩, Effects.empty) :=
  (@c3_advance_failure ⟨0, ⟨"A", "", "", ""⟩, ⟨none, none, none, none⟩⟩
    RegField.name "Name must be at least 2 characters" rfl rfl).1

/-- Claim C4: the confirm-password validator succeeds iff the value
equals the current password field value; on mismatch it yields
"Passwords do not match", and at step 3 the advance operation stores that
message and does not change the step. -/
theorem c4_confirm_password (fd : RegFormData) (v : String) :
    (validateField fd .confirmPassword v = none ↔ v = fd.password) ∧
    (v ≠ fd.password →
      validateField fd .confirmPassword v = some "Passwords do not match") ∧
    (∀ st : RegisterState, st.currentStep = 3 →
      st.formData.confirmPassword ≠ st.formData.password →
      handleNext st =
        some ({ st with
          errors := st.errors.set RegField.confirmPassword (some "Passwords do not match") },
          Effects.empty)) := by
  refine ⟨?_, fun hne => by simp [validateField, hne], fun st h3 hne => ?_⟩
  · by_cases h : v = fd.password <;> simp [validateField, h]
  · have hval : validateField st.formData .confirmPassword
        (st.formData.get .confirmPassword) = some "Passwords do not match" := by
      simp [validateField, RegFormData.get, hne]
    have hf : steps.get? st.currentStep = some RegField.confirmPassword := by
      rw [h3]; rfl
    simp only [handleNext, hf, hval]

/-- Witness for C4 on a concrete mismatched pair. -/
theorem c4_witness :
    validateField ⟨"", "", "secret12", ""⟩ .confirmPassword "other" =
      some "Passwords do not match" :=
  (c4_confirm_password ⟨"", "", "secret12", ""⟩ "other").2.1 (by decide)

/-- Claim C5: the retreat operation decrements the step index by 1 when
it is positive, leaves it unchanged at step 0, performs no validation,
and leaves every field value and every error entry unchanged; in
particular retreating from step 2 reaches step 1. -/
theorem c5_retreat (st : RegisterState) :
    (0 < st.currentStep →
      handleBack st = { st with currentStep := st.currentStep - 1 }) ∧
    (st.currentStep = 0 → handleBack st = st) ∧
    (handleBack st).formData = st.formData ∧
    (handleBack st).errors = st.errors ∧
    (st.currentStep = 2 → (handleBack st).currentStep = 1) := by
  refine ⟨fun hpos => ?_, fun hz => ?_, ?_, ?_, fun h2 => ?_⟩
  · simp only [handleBack, if_pos hpos]
  · simp only [handleBack]
    rw [if_neg (by omega)]
  · unfold handleBack; split <;> rfl
  · unfold handleBack; split <;> rfl
  · simp [handleBack, h2]

/-- Witness for C5 retreating from a concrete step-2 state. -/
theorem c5_witness :
    (handleBack ⟨2, ⟨"ab", "a@b.co", "pw", "x"⟩,
      ⟨some "", some "", some "e", none⟩⟩).currentStep = 1 :=
  (c5_retreat ⟨2, ⟨"ab", "a@b.co", "pw", "x"⟩,
    ⟨some "", some "", some "e", none⟩⟩).2.2.2.2 rfl

/-- Claim C6: submitting the sign-in form with empty email and empty
password stores exactly "Email is required" and "Password is required"
and performs no navigation and no toast. -/
theorem c6_login_empty :
    loginHandleSubmit ⟨"", ""⟩ =
      (⟨"Email is required", "Password is required"⟩, Effects.empty) := by
  decide

/-- Claim C7: submitting the sign-in form with email user\@test.com and
a 7-character password stores only the password-length error (the email
error is empty) with no effects; with the same email and any password of
length at least 8 the submission succeeds with exactly one toast and one
navigation to the home route. -/
theorem c7_login_password_length (pw : String) :
    (pw.length = 7 →
      loginHandleSubmit ⟨"user@test.com", pw⟩ =
        (⟨"", "Password must be at least 8 characters"⟩, Effects.empty)) ∧
    (8 ≤ pw.length →
      loginHandleSubmit ⟨"user@test.com", pw⟩ =
        (⟨"", ""⟩, loginSuccessEffects)) := by
  have hmail : emailMatch "user@test.com" = true := by decide
  constructor
  · intro h7
    have hne : pw ≠ "" := by
      intro hz; rw [hz] at h7; simp [String.length] at h7
    simp [loginHandleSubmit, loginValidateErrors, hne, hmail,
      show pw.length < 8 by omega]
  · intro h8
    have hne : pw ≠ "" := by
      intro hz; rw [hz] at h8; simp [String.length] at h8
    simp [loginHandleSubmit, loginValidateErrors, hne, hmail,
      show ¬pw.length < 8 by omega]

/-- Witness for C7 with concrete 7- and 8-character passwords. -/
theorem c7_witness :
    loginHandleSubmit ⟨"user@test.com", "1234567"⟩ =
      (⟨"", "Password must be at least 8 characters"⟩, Effects.empty) ∧
    loginHandleSubmit ⟨"user@test.com", "12345678"⟩ =
      (⟨"", ""⟩, loginSuccessEffects) :=
  ⟨(c7_login_password_length "1234567").1 (by decide),
   (c7_login_password_length "12345678").2 (by decide)⟩

/-- Claim C8: the progress indicator is a pure function of the current
step and the total step count (it is a plain function in this embedding),
producing exactly totalSteps segments where an index below the current
step is completed, the current index is active and later indices are
pending; for 4 total steps and current step 2 the segments are completed,
completed, active, pending. -/
theorem c8_progress_indicator (currentStep totalSteps : Nat) :
    (progressSteps currentStep totalSteps).length = totalSteps ∧
    (∀ i, i < totalSteps →
      (progressSteps currentStep totalSteps)[i]? =
        some (if i < currentStep then SegmentState.completed
              else if i = currentStep then SegmentState.active
              else SegmentState.pending)) ∧
    progressSteps 2 4 = [.completed, .completed, .active, .pending] := by
  refine ⟨by simp [progressSteps], fun i hi => ?_, by decide⟩
  simp [progressSteps, List.getElem?_map, List.getElem?_range hi]

/-- Witness for C8 at current step 2, total 4, index 1. -/
theorem c8_witness :
    (progressSteps 2 4)[1]? =
      some (if 1 < 2 then SegmentState.completed
            else if 1 = 2 then SegmentState.active else SegmentState.pending) :=
  (c8_progress_indicator 2 4).2.1 1 (by decide)

/-- Claim C9: in every wizard state reachable from the mount state by
field edits, advances and retreats, the step index is below 4 (it is a
natural number, so it is also at least 0). -/
theorem c9_current_step_in_range {st : RegisterState} (h : Reachable st) :
    st.currentStep < 4 :=
  (reachable_inv h).1

/-- Witness for C9 at the mount state. -/
theorem c9_witness : initialState.currentStep < 4 :=
  c9_current_step_in_range Reachable.init

/-- Claim C10: in every reachable wizard state, a step index of at
least 1 implies the trimmed name has length at least 2, at least 2
implies the email matches the regex, and exactly 3 implies the password
has length at least 8 — stale invalid values can exist only at or after
the current step. -/
theorem c10_validated_behind_step {st : RegisterState} (h : Reachable st) :
    stepFieldsValid st :=
  (reachable_inv h).2

/-- Witness for C10 at the mount state. -/
theorem c10_witness : stepFieldsValid initialState :=
  c10_validated_behind_step Reachable.init
